import Mathlib

/-!
Verification of the flake-ci build-orchestration core: a shallow embedding of
the dependency graph (`src/graph.rs`), the configuration pattern DSL
(`src/config.rs`) and the build orchestrator (`src/app.rs`), with theorems
settling the specification's claims about them.

Modelling conventions:
- Rust `String` is Lean `String`; the handful of character-level operations
  (`split_once`, `to_lowercase`, `strip_suffix`) are modelled on the
  underlying character list.  `to_lowercase` is modelled ASCII-only
  (`Char.toLower`), which coincides with Rust on every string these claims
  mention.
- `Vec`/`HashSet`/`HashMap` become lists / association lists kept in
  insertion order (hash iteration order is unspecified in Rust; the claims
  under scrutiny never depend on it, their scenarios have at most one
  element per set).
- Loops whose termination is not syntactically evident in the Rust source
  (the cycle-confirmation walk and the parent walk of chain decomposition)
  are embedded with an explicit fuel parameter; `none` means the Rust loop
  has not returned within that many iterations.
- Fallible Rust code (`Result`, `bail!`) returns `Option`/sum-style results.
-/

namespace FlakeCI

/-! ## Pattern DSL (src/config.rs, `Pattern<T>`) -/

inductive Pattern (T : Type) where
  | Any : Pattern T
  | Not : T → Pattern T
  | Specified : T → Pattern T
deriving DecidableEq

/-- `Pattern::matches` (config.rs:233-239). -/
def Pattern.matches [DecidableEq T] : Pattern T → T → Bool
  | .Any, _ => true
  | .Not p, other => decide (other ≠ p)
  | .Specified p, other => decide (other = p)

/-! ## Platforms (src/config.rs, `OS`, `Arch`, `System`) -/

inductive OS where
  | Linux
  | Darwin
  | Windows
deriving DecidableEq

inductive Arch where
  | X86
  | Arm
deriving DecidableEq

/-- `Display for OS` (config.rs:100-108). -/
def OS.str : OS → String
  | .Linux => "linux"
  | .Darwin => "darwin"
  | .Windows => "windows"

/-- `Display for Arch` (config.rs:127-134). -/
def Arch.str : Arch → String
  | .X86 => "x86_64"
  | .Arm => "aarch64"

structure System where
  os : OS
  arch : Arch
deriving DecidableEq

/-- `Display for System` (config.rs:197-201): `"<arch>-<os>"`. -/
def System.format (s : System) : String := s.arch.str ++ "-" ++ s.os.str

def System.x86_linux : System := ⟨OS.Linux, Arch.X86⟩
def System.x86_darwin : System := ⟨OS.Darwin, Arch.X86⟩
def System.arm_linux : System := ⟨OS.Linux, Arch.Arm⟩
def System.arm_darwin : System := ⟨OS.Darwin, Arch.Arm⟩
def System.x86_windows : System := ⟨OS.Windows, Arch.X86⟩
def System.arm_windows : System := ⟨OS.Windows, Arch.Arm⟩

/-- A winnow literal: strip the expected characters off the input or fail. -/
def stripLit : List Char → List Char → Option (List Char)
  | [], rest => some rest
  | _ :: _, [] => none
  | e :: es, c :: cs => if e = c then stripLit es cs else none

/-- The `os` parser (config.rs:110-112): `alt(("linux", "darwin"))` —
note that it has no alternative for `"windows"`. -/
def osRun (s : List Char) : Option (OS × List Char) :=
  match stripLit "linux".data s with
  | some rest => some (OS.Linux, rest)
  | none =>
    match stripLit "darwin".data s with
    | some rest => some (OS.Darwin, rest)
    | none => none

/-- The `arch` parser (config.rs:136-138): `alt(("x86_64", "aarch64"))`. -/
def archRun (s : List Char) : Option (Arch × List Char) :=
  match stripLit "x86_64".data s with
  | some rest => some (Arch.X86, rest)
  | none =>
    match stripLit "aarch64".data s with
    | some rest => some (Arch.Arm, rest)
    | none => none

/-- The `system` parser (config.rs:203-210): arch, `"-"`, os. -/
def systemRun (s : List Char) : Option (System × List Char) :=
  match archRun s with
  | none => none
  | some (a, rest) =>
    match stripLit "-".data rest with
    | none => none
    | some rest2 =>
      match osRun rest2 with
      | none => none
      | some (o, rest3) => some (⟨o, a⟩, rest3)

/-- `System::from_str` (config.rs:212-217): `system.parse(s)` — the whole
input must be consumed. -/
def System.fromString (s : String) : Option System :=
  match systemRun s.data with
  | some (sys, []) => some sys
  | _ => none

/-! ## Output-path rules and artifact-save policy (src/config.rs) -/

structure OutputPath where
  top_level : Pattern String
  system : Pattern System
  name : Pattern String
deriving DecidableEq

/-- `OutputPath::matches` (config.rs:250-252): conjunctive across the three
components. -/
def OutputPath.matches (r : OutputPath) (top_level : String) (system : System)
    (name : String) : Bool :=
  r.top_level.matches top_level && r.system.matches system && r.name.matches name

structure Build where
  outputs : List String
  artifacts : List OutputPath
  architectures : List Arch
  os : List OS
  systems : List System

/-- `default_outputs` (config.rs:25-36). -/
def defaultOutputs : List String :=
  ["checks", "packages", "devShells", "homeConfigurations",
   "darwinConfigurations", "nixosConfigurations", "defaultPackage", "devShell"]

/-- `impl Default for Build` (config.rs:334-357). -/
def Build.default : Build :=
  { outputs := defaultOutputs
    artifacts := [⟨Pattern.Specified "packages", Pattern.Any, Pattern.Not "formatter"⟩]
    architectures := []
    os := []
    systems := [System.x86_linux, System.x86_darwin] }

structure Cache where
  cache_name : String
  publish : Bool
  pin : List OutputPath

structure Config where
  artifact_dir : String
  cache : Option Cache
  build : Build
  env : List (String × String)

def Config.default : Config :=
  { artifact_dir := "dist", cache := none, build := Build.default, env := [] }

/-- The loop body of `Config::save_artifact` (config.rs:444-451): return
`false` as soon as one configured rule does not match, `true` if every rule
matched (vacuously `true` on an empty rule list). -/
def saveArtifactRules (rules : List OutputPath) (top_level : String)
    (system : System) (name : String) : Bool :=
  match rules with
  | [] => true
  | a :: rest =>
    if !(a.matches top_level system name) then false
    else saveArtifactRules rest top_level system name

/-- `Config::save_artifact` (config.rs:444-451). -/
def Config.save_artifact (cfg : Config) (top_level : String) (system : System)
    (name : String) : Bool :=
  saveArtifactRules cfg.build.artifacts top_level system name

/-! ## Dependency graph (src/graph.rs) -/

structure Graph (T : Type) where
  nodes : List T
  children : List (List Nat)
  parents : List (Option Nat)
deriving DecidableEq

/-- `Graph::new` (graph.rs:19-25). -/
def Graph.new {T : Type} : Graph T := ⟨[], [], []⟩

/-- `Graph::add_node` (graph.rs:27-31). -/
def Graph.add_node (g : Graph T) (data : T) : Graph T :=
  ⟨g.nodes ++ [data], g.children ++ [[]], g.parents ++ [none]⟩

/-- `Graph::get_index_of` (graph.rs:33-35): position of the first node whose
payload equals `data`. -/
def Graph.get_index_of [DecidableEq T] (g : Graph T) (data : T) : Option Nat :=
  g.nodes.findIdx? (fun x => x = data)

def Graph.len (g : Graph T) : Nat := g.nodes.length

/-- `Graph::is_leaf` (graph.rs:76-78). -/
def Graph.is_leaf (g : Graph T) (idx : Nat) : Bool :=
  (g.children.getD idx []).isEmpty

/-- `Graph::data_of` (graph.rs:80-82); Rust indexing panics out of range,
the claims only ever evaluate it in range. -/
def Graph.data_of [Inhabited T] (g : Graph T) (idx : Nat) : T :=
  g.nodes.getD idx default

/-- `Graph::parent_of` (graph.rs:84-86). -/
def Graph.parent_of (g : Graph T) (idx : Nat) : Option Nat :=
  g.parents.getD idx none

/-- Result of `Graph::mark_dep`. -/
inductive MarkDepResult (T : Type) where
  | ok (g : Graph T)
  | nodeNotFound
  | cycleDetected (path : List Nat)
deriving DecidableEq

/-- The cycle-confirmation loop of `Graph::mark_dep` (graph.rs:55-63):
walk the parent chain from the freshly linked child, pushing every visited
index onto `path`; bail with the path when the parent just stepped to equals
the node it was read from (`parent_index == child_index`).  The Rust `while`
loop has no other exit on cyclic inputs, so the embedding carries fuel:
`none` means the loop has not returned within `fuel` iterations;
`some none` means it terminated normally; `some (some path)` means it bailed
with `Circular graph: path`. -/
def cycleWalk (parents : List (Option Nat)) :
    Nat → Nat → List Nat → Option (Option (List Nat))
  | 0, _, _ => none
  | fuel + 1, cur, path =>
    match parents.getD cur none with
    | none => some none
    | some p =>
      if p = cur then some (some (path ++ [p]))
      else cycleWalk parents fuel p (path ++ [p])

/-- `Graph::mark_dep` (graph.rs:37-66): look both payloads up, link the edge
(child appended to the parent's child list, child's parent pointer
overwritten), then run the cycle-confirmation walk.  `none` means the walk
has not returned within `fuel` iterations. -/
def Graph.mark_dep [DecidableEq T] (g : Graph T) (parent child : T)
    (fuel : Nat) : Option (MarkDepResult T) :=
  match g.get_index_of parent with
  | none => some .nodeNotFound
  | some parentIndex =>
    match g.get_index_of child with
    | none => some .nodeNotFound
    | some childIndex =>
      if parentIndex < g.children.length then
        let g2 : Graph T :=
          { g with
            children := g.children.set parentIndex
              ((g.children.getD parentIndex []) ++ [childIndex])
            parents := g.parents.set childIndex (some parentIndex) }
        match cycleWalk g2.parents fuel childIndex [childIndex] with
        | none => none
        | some none => some (.ok g2)
        | some (some path) => some (.cycleDetected path)
      else some .nodeNotFound

/-- The parent walk of `GraphWalker::chains` (graph.rs:131-141), recorded as
the list of indices visited starting at `cur` (leaf first, root last).
`none` means the Rust `while` loop would still be running after `fuel`
iterations. -/
def rootWalk (parents : List (Option Nat)) : Nat → Nat → Option (List Nat)
  | 0, _ => none
  | fuel + 1, cur =>
    match parents.getD cur none with
    | none => some [cur]
    | some p => (rootWalk parents fuel p).map (fun rest => cur :: rest)

/-- Mark a list of indices as walked (`self.walked[i] = Status::Walked`). -/
def markWalked (walked : List Bool) (idxs : List Nat) : List Bool :=
  idxs.foldl (fun w i => w.set i true) walked

/-- The loop of `GraphWalker::chains` (graph.rs:120-148) over the remaining
node indices.  For each index that is unwalked and a leaf: collect the
payloads along the parent walk, mark each visited index walked, reverse the
collected list and emit it as one chain.  A walk whose fuel runs out
corresponds to a diverging Rust loop; every theorem below either supplies a
terminating graph or hypothesises termination, making that branch dead. -/
def chainsGo [Inhabited T] (g : Graph T) :
    List Nat → List Bool → List (List T)
  | [], _ => []
  | i :: rest, walked =>
    if walked.getD i false then chainsGo g rest walked
    else if g.is_leaf i then
      match rootWalk g.parents g.len i with
      | none => chainsGo g rest (markWalked walked [i])
      | some path =>
        ((path.map g.data_of).reverse) :: chainsGo g rest (markWalked walked path)
    else chainsGo g rest walked

/-- `GraphWalker::chains` (graph.rs:120-148): iterate the indices in
insertion order with an all-`NotWalked` array.  Fuel `g.len` is enough for
every terminating parent walk on an in-range parent array (a deterministic
terminating walk never revisits an index). -/
def Graph.chains [Inhabited T] (g : Graph T) : List (List T) :=
  chainsGo g (List.range g.len) (List.replicate g.len false)

/-- Indices of the leaves in insertion order. -/
def Graph.leafIdxs (g : Graph T) : List Nat :=
  (List.range g.len).filter (fun i => g.is_leaf i)

/-- Decidable form of "every recorded parent pointer targets a node with a
nonempty child list" — true of every graph built through `mark_dep`, which
appends to the parent's child list whenever it sets a parent pointer. -/
def Graph.parentsHaveChildren (g : Graph T) : Bool :=
  g.parents.all (fun o => match o with
    | none => true
    | some p => !(g.is_leaf p))

/-- Decidable form of "the parent walk from every node terminates within
`g.len` steps" — the forest invariant of the data model. -/
def Graph.walksTerminate (g : Graph T) : Bool :=
  (List.range g.len).all (fun i => (rootWalk g.parents g.len i).isSome)

/-! ## Build targets and check-type inference (src/app.rs) -/

structure Derivation where
  output : String
  system : System
  name : String
deriving DecidableEq

instance : Inhabited Derivation := ⟨⟨"", System.x86_linux, ""⟩⟩

/-- `Display for Derivation` (app.rs:57-61): `".#<output>.<system>.<name>"`. -/
def Derivation.format (d : Derivation) : String :=
  ".#" ++ d.output ++ "." ++ d.system.format ++ "." ++ d.name

/-- Rust `str::split_once` on a character: the pieces before and after the
first occurrence, or `none` when the character does not occur. -/
def splitOnceChars (c : Char) : List Char → Option (List Char × List Char)
  | [] => none
  | x :: xs =>
    if x = c then some ([], xs)
    else (splitOnceChars c xs).map (fun pr => (x :: pr.1, pr.2))

def splitOnce (s : String) (c : Char) : Option (String × String) :=
  (splitOnceChars c s.data).map (fun pr => (⟨pr.1⟩, ⟨pr.2⟩))

/-- Rust `str::to_lowercase`, ASCII-only (all inputs of interest are ASCII). -/
def lowerStr (s : String) : String := ⟨s.data.map Char.toLower⟩

/-- Rust `str::strip_suffix('s')` folded into `find_check_type`'s use:
drop one trailing `'s'` when present. -/
def stripTrailingS (s : String) : String :=
  if s.data.getLast? = some 's' then ⟨s.data.dropLast⟩ else s

/-- The alias match of `find_check_type` (app.rs:117-125). -/
def checkTypeTable (s : String) : Option String :=
  if s = "pkg" ∨ s = "package" then some "packages"
  else if s = "devshell" ∨ s = "shell" then some "devShells"
  else if s = "nixo" ∨ s = "nixosconfig" ∨ s = "nixosconfiguration" then
    some "nixosConfigurations"
  else if s = "darwin" ∨ s = "darwinconfig" ∨ s = "darwinconfiguration" then
    some "darwinConfigurations"
  else if s = "home" ∨ s = "homeconfig" ∨ s = "homeconfiguration" then
    some "homeConfigurations"
  else if s = "system" ∨ s = "systemconfig" ∨ s = "systemconfiguration" then
    some "systemConfigs"
  else none

/-- `find_check_type` (app.rs:111-128): lowercase, strip one optional
trailing `'s'`, look the result up; `none` is the `bail!("Unknown check
type")` branch. -/
def findCheckType (input : String) : Option String :=
  checkTypeTable (stripTrailingS (lowerStr input))

/-- `get_type_of_check` (app.rs:130-137): split the check's name on its
first `'-'`; `none` when there is no `'-'` or the alias lookup fails. -/
def getTypeOfCheck (d : Derivation) : Option String :=
  match splitOnce d.name '-' with
  | none => none
  | some (pre, _) => findCheckType pre

/-- `check_checks_derivation` (app.rs:139-151). -/
def checkChecksDerivation (check drv : Derivation) : Bool :=
  if check.system = drv.system then
    match splitOnce check.name '-' with
    | some (pre, suf) =>
      match findCheckType pre with
      | some checkType =>
        if lowerStr checkType = lowerStr drv.output then
          lowerStr suf = lowerStr drv.name
        else false
      | none => false
    | none => false
  else false

/-! ## Build orchestrator (src/app.rs, `App::build_all` / `App::run`) -/

/-- `Status` (app.rs:63-68). -/
inductive Status where
  | skipped
  | success
  | fail
deriving DecidableEq

/-- One registration call on the reporting `Summary`, in call order. -/
inductive Event where
  | skipOutput (output : String)
  | skip (drv : Derivation)
  | fail (drv : Derivation)
  | success (drv : Derivation)
  | blocked (drv : Derivation) (preRec : Derivation)
deriving DecidableEq

/-- The orchestrator state threaded through `build_all`:
`allSucceeded` is the `all_succeeded` flag, `haveRan` the `have_ran` set,
`events` the summary registrations in order, and `built` records every
invocation of `self.build` together with its outcome (instrumentation for
the claims about which nodes are actually built). -/
structure ExecState where
  allSucceeded : Bool
  haveRan : List Derivation
  built : List (Derivation × Status)
  events : List Event
deriving DecidableEq

def initState : ExecState := ⟨true, [], [], []⟩

/-- The inner blocking loop on `Fail` (app.rs:347-359): `for j in i..` over
the not-yet-run remainder of the chain **starting at the failing node
itself**, registering each as blocked on `preRec` and inserting it into
`have_ran`. -/
def blockRest (preRec : Derivation) :
    List (Derivation × String) → ExecState → ExecState
  | [], st => st
  | (drv, _) :: rest, st =>
    if st.haveRan.contains drv then blockRest preRec rest st
    else blockRest preRec rest
      { st with
        events := st.events ++ [.blocked drv preRec]
        haveRan := drv :: st.haveRan }

/-- One chain's node loop (app.rs:319-389): skip nodes already ran, invoke
the builder on the node's path, then dispatch on the outcome exactly as the
`match status` does.  The artifact-symlink staging of the `Success` arm is
filesystem I/O outside this model (its failure aborts the whole run and the
claims below quantify over runs that complete). -/
def execChain (builder : String → Status) :
    List (Derivation × String) → ExecState → ExecState
  | [], st => st
  | (drv, path) :: rest, st =>
    if st.haveRan.contains drv then execChain builder rest st
    else
      let status := builder path
      let st1 := { st with built := st.built ++ [(drv, status)] }
      match status with
      | .skipped =>
        execChain builder rest
          { st1 with
            events := st1.events ++ [.skip drv]
            haveRan := drv :: st1.haveRan }
      | .fail =>
        blockRest drv ((drv, path) :: rest)
          { st1 with
            allSucceeded := false
            events := st1.events ++ [.fail drv] }
      | .success =>
        execChain builder rest
          { st1 with
            events := st1.events ++ [.success drv]
            haveRan := drv :: st1.haveRan }

/-- The chain loop (app.rs:319): chains are executed in order, the blocking
`break` confined to one chain. -/
def execChains (builder : String → Status)
    (chains : List (List (Derivation × String))) (st : ExecState) : ExecState :=
  chains.foldl (fun acc c => execChain builder c acc) st

/-- The evaluator collaborator (`App::attributes` / `App::derivation_path`):
`attributes` returns `none` where `nix eval` fails on a missing category
(recorded as skipped-output); path resolution is modelled total, its failure
aborts the run before anything is built. -/
structure Evaluator where
  attributes : String → System → Option (List String)
  pathOf : Derivation → String

/-- Association list primitives standing in for `HashMap<String, HashSet<_>>`
in insertion order.  `setsInsert` is `sets.insert(k, HashSet::new())`
(replacing any previous entry), `setsAdd` appends to an existing key's set,
`setsGet` is `sets.get`, `setsRemove` is `sets.remove`. -/
def setsInsert (sets : List (String × List A)) (k : String) :
    List (String × List A) :=
  if sets.any (fun kv => kv.1 = k) then
    sets.map (fun kv => if kv.1 = k then (k, ([] : List A)) else kv)
  else sets ++ [(k, [])]

def setsAdd (sets : List (String × List A)) (k : String) (a : A) :
    List (String × List A) :=
  sets.map (fun kv => if kv.1 = k then (kv.1, kv.2 ++ [a]) else kv)

def setsGet (sets : List (String × List A)) (k : String) : Option (List A) :=
  (sets.find? (fun kv => kv.1 = k)).map (fun kv => kv.2)

def setsRemove (sets : List (String × List A)) (k : String) :
    Option (List A) × List (String × List A) :=
  (setsGet sets k, sets.filter (fun kv => !(kv.1 = k : Bool)))

/-- The resolution loop of `build_all` (app.rs:262-286): for each configured
output category, insert an empty set, query the evaluator (a miss is
recorded as a skipped output and the category is left empty), then add a
node per attribute to both the category's set and the graph.  Returns the
graph, the category sets and the skipped categories. -/
def resolveSystem (ev : Evaluator) (outputs : List String) (sys : System) :
    Graph (Derivation × String) × List (String × List (Derivation × String))
      × List String :=
  outputs.foldl
    (fun acc output =>
      let (g, sets, skipped) := acc
      let sets := setsInsert sets output
      match ev.attributes output sys with
      | none => (g, sets, skipped ++ [output])
      | some attrs =>
        attrs.foldl
          (fun acc2 attr =>
            let (g, sets, skipped) := acc2
            let drv : Derivation := ⟨output, sys, attr⟩
            let path := ev.pathOf drv
            (g.add_node (drv, path), setsAdd sets output (drv, path), skipped))
          (g, sets, skipped))
    (Graph.new, [], [])

/-- The inner loop of the check-marking pass (app.rs:297-306): for each
same-category derivation the check actually checks, `mark_dep(check, drv)`;
a `mark_dep` error (or a diverging confirmation walk) aborts the run
(`none`). -/
def markDeps (fuel : Nat) (check : Derivation × String) :
    List (Derivation × String) → Graph (Derivation × String) →
    Option (Graph (Derivation × String))
  | [], g => some g
  | (drv, path) :: rest, g =>
    if checkChecksDerivation check.1 drv then
      match g.mark_dep check (drv, path) fuel with
      | some (.ok g2) => markDeps fuel check rest g2
      | _ => none
    else markDeps fuel check rest g

/-- The check-marking pass (app.rs:289-308): for every check, infer the
category it gates; a check with no classification is left ungated
(`continue`), as is a check whose category has no resolved set. -/
def markChecks (fuel : Nat)
    (sets : List (String × List (Derivation × String))) :
    List (Derivation × String) → Graph (Derivation × String) →
    Option (Graph (Derivation × String))
  | [], g => some g
  | (check, checkPath) :: rest, g =>
    match getTypeOfCheck check with
    | none => markChecks fuel sets rest g
    | some t =>
      match setsGet sets t with
      | none => markChecks fuel sets rest g
      | some drvs =>
        match markDeps fuel (check, checkPath) drvs g with
        | none => none
        | some g2 => markChecks fuel sets rest g2

/-- Resolution plus check marking for one system (app.rs:262-308), up to the
point where the graph is handed to the walker.  `mark_dep`'s confirmation
walk gets fuel `g.len + 1`, enough for every terminating walk. -/
def graphFor (ev : Evaluator) (outputs : List String) (sys : System) :
    Option (Graph (Derivation × String)) :=
  let (g, sets, _) := resolveSystem ev outputs sys
  let (checksOpt, sets2) := setsRemove sets "checks"
  match checksOpt with
  | none => some g
  | some checks => markChecks (g.len + 1) sets2 checks g

def addSkipOutputs (st : ExecState) (outs : List String) : ExecState :=
  { st with events := st.events ++ outs.map Event.skipOutput }

/-- One iteration of the per-system loop of `build_all` (app.rs:253-390)
for a system equal to the host: resolve, mark check edges, decompose into
chains, execute.  `none` is a fatal `mark_dep` error aborting the run. -/
def buildSystem (ev : Evaluator) (outputs : List String) (sys : System)
    (builder : String → Status) (st : ExecState) : Option ExecState :=
  let (_, _, skipped) := resolveSystem ev outputs sys
  match graphFor ev outputs sys with
  | none => none
  | some g => some (execChains builder g.chains (addSkipOutputs st skipped))

/-- Insertion-order deduplication standing in for the `HashSet` used by
`Config::systems` (config.rs:425-442); hash iteration order is unspecified
in Rust, first-occurrence order is one conforming choice. -/
def dedupKeepFirst [DecidableEq A] (l : List A) : List A :=
  (l.foldl (fun acc a => if acc.contains a then acc else acc ++ [a]) [])

/-- `Config::systems` (config.rs:425-442): explicit list plus the
architectures × os cross-product, deduplicated. -/
def Config.systemsList (cfg : Config) : List System :=
  dedupKeepFirst
    (cfg.build.systems ++
      cfg.build.architectures.flatMap (fun a =>
        cfg.build.os.map (fun o => (⟨o, a⟩ : System))))

/-- One iteration of `build_all`'s system loop (app.rs:253-258): a system
differing from the host is skipped with a warning; an earlier fatal error
(`none`) short-circuits the rest. -/
def buildStep (ev : Evaluator) (outputs : List String) (host : System)
    (builder : String → Status) (acc : Option ExecState) (sys : System) :
    Option ExecState :=
  match acc with
  | none => none
  | some st =>
    if sys = host then buildSystem ev outputs sys builder st
    else some st

/-- `App::build_all` (app.rs:250-393): loop over the configured systems,
skipping any system that differs from the host (cross compilation
unsupported), executing the per-system pipeline otherwise.  `none` is a
fatal error aborting the run. -/
def buildAll (ev : Evaluator) (cfg : Config) (host : System)
    (builder : String → Status) : Option ExecState :=
  cfg.systemsList.foldl (buildStep ev cfg.build.outputs host builder)
    (some initState)

/-- The boolean `App::run` returns (app.rs:395-439) when no fatal error
occurs: exactly `build_all`'s `all_succeeded` flag. -/
def runModel (ev : Evaluator) (cfg : Config) (host : System)
    (builder : String → Status) : Option Bool :=
  (buildAll ev cfg host builder).map (fun st => st.allSucceeded)

/-! ## Concrete instances the theorems evaluate the model at -/

def sysLin : System := System.x86_linux

/-- Two nodes, no edges (the graph before `mark_dep(a, b)`). -/
def pairGraph : Graph Nat := (Graph.new.add_node 0).add_node 1

/-- The same graph after a successful `mark_dep(0, 1)`. -/
def pairLinked : Graph Nat := ⟨[0, 1], [[1], []], [none, some 0]⟩

/-- The state `mark_dep(1, 0)` links before its confirmation walk starts. -/
def pairBack : Graph Nat := ⟨[0, 1], [[1], [0]], [some 1, some 0]⟩

/-- A configuration whose `[build]` section supplies no artifact rules. -/
def emptyRulesConfig : Config :=
  { Config.default with build := { Build.default with artifacts := [] } }

/-- The single rule of `Build::default`: `packages.*.!formatter`. -/
def defaultRule : OutputPath :=
  ⟨Pattern.Specified "packages", Pattern.Any, Pattern.Not "formatter"⟩

/-- Three nodes, no edges. -/
def triGraph : Graph Nat := ((Graph.new.add_node 0).add_node 1).add_node 2

/-- `triGraph` after `mark_dep(0, 1)`. -/
def starMid : Graph Nat := ⟨[0, 1, 2], [[1], [], []], [none, some 0, none]⟩

/-- `triGraph` after `mark_dep(0, 1)` and `mark_dep(0, 2)`: one root with two
children. -/
def starGraph : Graph Nat := ⟨[0, 1, 2], [[1, 2], [], []], [none, some 0, some 0]⟩

def drvA : Derivation := ⟨"packages", sysLin, "alpha"⟩
def drvB : Derivation := ⟨"packages", sysLin, "beta"⟩
def drvC : Derivation := ⟨"packages", sysLin, "gamma"⟩

/-- A builder failing exactly the path `"pa"`. -/
def failFirstBuilder : String → Status :=
  fun p => if p = "pa" then Status.fail else Status.success

def checkDrv : Derivation := ⟨"checks", sysLin, "pkgs-foo"⟩
def fooDrv : Derivation := ⟨"packages", sysLin, "foo"⟩

/-- Evaluator of the end-to-end claim: `checks` = `["pkgs-foo"]`,
`packages` = `["foo"]`, nothing else. -/
def evGated : Evaluator :=
  ⟨fun o _ =>
      if o = "checks" then some ["pkgs-foo"]
      else if o = "packages" then some ["foo"]
      else none,
    fun d => d.format⟩

/-- Categories `["checks", "packages"]` on the single host platform. -/
def cfgTwoCats : Config :=
  { Config.default with
    build := { Build.default with
      outputs := ["checks", "packages"], systems := [sysLin] } }

/-- A builder failing exactly the check's build path. -/
def checkFailBuilder : String → Status :=
  fun p => if p = checkDrv.format then Status.fail else Status.success

def standaloneDrv : Derivation := ⟨"checks", sysLin, "standalone"⟩

/-- Evaluator with a check whose name has no `'-'`. -/
def evUngated : Evaluator :=
  ⟨fun o _ =>
      if o = "checks" then some ["standalone"]
      else if o = "packages" then some ["foo"]
      else none,
    fun d => d.format⟩

def allOkBuilder : String → Status := fun _ => Status.success

/-- The strings `find_check_type` matches after normalization. -/
def aliasKeys : List String :=
  ["pkg", "package", "devshell", "shell", "nixo", "nixosconfig",
   "nixosconfiguration", "darwin", "darwinconfig", "darwinconfiguration",
   "home", "homeconfig", "homeconfiguration", "system", "systemconfig",
   "systemconfiguration"]

/-- The lowercase prefixes that reach an entry of the alias table: the keys
and the keys with the optional trailing `'s'`. -/
def aliasStrings : List String := aliasKeys ++ aliasKeys.map (fun k => k ++ "s")

/-- The run-level invariant of `build_all`: the `all_succeeded` flag is up
exactly when no invoked build returned `Fail`. -/
def NoFailInv (st : ExecState) : Prop :=
  st.allSucceeded = true ↔ ∀ p ∈ st.built, p.2 ≠ Status.fail

/-! ## Pattern and artifact-save claims -/

/-- Claim C9: for every value `x` and pattern over an equality type,
`Any.matches x` is true; `Specified(v).matches x` is true exactly when
`x = v`; `Not(v).matches x` is false when `x = v` and true otherwise. -/
theorem pattern_matches_contract :
    ∀ (V : Type) (_inst : DecidableEq V) (x v : V),
      (Pattern.Any : Pattern V).matches x = true ∧
      ((Pattern.Specified v).matches x = true ↔ x = v) ∧
      ((Pattern.Not v).matches x = true ↔ x ≠ v) := by
  intro V _inst x v
  refine ⟨rfl, ?_, ?_⟩ <;> simp [Pattern.matches]

theorem saveArtifactRules_eq_all (rules : List OutputPath) (t : String)
    (s : System) (n : String) :
    saveArtifactRules rules t s n = rules.all (fun a => a.matches t s n) := by
  induction rules with
  | nil => rfl
  | cons a rest ih =>
    cases hm : a.matches t s n with
    | true => simp [saveArtifactRules, hm, ih]
    | false => simp [saveArtifactRules, hm]

/-- Claim C2 counterexample: with an explicitly configured empty rule list,
`save_artifact` archives the target `(packages, x86_64-linux, "formatter")`,
whereas the claim says an empty rule list behaves as the single default rule
`packages.*.!formatter`, which rejects that target. -/
theorem save_artifact_empty_rules_cex :
    emptyRulesConfig.save_artifact "packages" System.x86_linux "formatter" = true ∧
    defaultRule.matches "packages" System.x86_linux "formatter" = false := by
  constructor
  · rfl
  · decide

/-- Claim C2 (amended): `save_artifact` is the conjunction of
`rule.matches` over every configured rule, hence vacuously true — every
target archived — when the configured list is empty; the single rule
`packages.*.!formatter` comes from `Build`'s `Default` (used when no build
section is configured), and under that default rule set `(packages, any
platform, "formatter")` is not archived while `(packages, any platform,
"foo")` is. -/
theorem save_artifact_policy :
    (∀ (cfg : Config) (t : String) (s : System) (n : String),
      cfg.save_artifact t s n = true ↔
        ∀ a ∈ cfg.build.artifacts, a.matches t s n = true) ∧
    (∀ (t : String) (s : System) (n : String),
      emptyRulesConfig.save_artifact t s n = true) ∧
    Build.default.artifacts = [defaultRule] ∧
    (∀ s : System,
      Config.default.save_artifact "packages" s "formatter" = false) ∧
    (∀ s : System, Config.default.save_artifact "packages" s "foo" = true) := by
  refine ⟨?_, ?_, rfl, ?_, ?_⟩
  · intro cfg t s n
    rw [Config.save_artifact, saveArtifactRules_eq_all, List.all_eq_true]
  · intro t s n; rfl
  · intro s
    simp [Config.save_artifact, Config.default, Build.default,
      saveArtifactRules, OutputPath.matches, Pattern.matches]
  · intro s
    simp [Config.save_artifact, Config.default, Build.default,
      saveArtifactRules, OutputPath.matches, Pattern.matches]

/-! ## Platform round-trip claims -/

/-- Claim C3 counterexample: the platform `(Windows, x86_64)` formats to
`"x86_64-windows"`, but parsing that string fails (the `os` parser has
alternatives only for `linux` and `darwin`), so the round-trip does not hold
on every OS of the data model. -/
theorem windows_roundtrip_fails :
    System.fromString (System.format ⟨OS.Windows, Arch.X86⟩) = none := by
  rfl

/-- Claim C3 (amended): parsing inverts formatting for every platform whose
OS is Linux or Darwin; Windows platforms format to `"<arch>-windows"`,
which the parser rejects. -/
theorem platform_roundtrip (s : System) (h : s.os ≠ OS.Windows) :
    System.fromString (System.format s) = some s := by
  obtain ⟨o, a⟩ := s
  cases o <;> cases a <;> first
    | rfl
    | exact absurd rfl h

/-- Witness for `platform_roundtrip` at `(Linux, x86_64)`. -/
theorem platform_roundtrip_witness :
    System.x86_linux.os ≠ OS.Windows ∧
    System.fromString (System.format System.x86_linux) = some System.x86_linux :=
  ⟨by decide, platform_roundtrip System.x86_linux (by decide)⟩

/-! ## Check-type inference claims -/

theorem checkTypeTable_none_of_not_mem (s : String) (h : s ∉ aliasKeys) :
    checkTypeTable s = none := by
  unfold checkTypeTable
  split_ifs with h1 h2 h3 h4 h5 h6 <;>
    first
      | rfl
      | (exfalso; apply h; simp [aliasKeys]; tauto)

theorem getLast_decomp (l : List Char) (c : Char) (h : l.getLast? = some c) :
    l = l.dropLast ++ [c] := by
  have hne : l ≠ [] := by rintro rfl; simp at h
  have hg : l.getLast hne = c := by
    rw [List.getLast?_eq_getLast l hne] at h
    exact Option.some_inj.mp h
  conv_lhs => rw [← List.dropLast_append_getLast hne]
  rw [hg]

theorem stripTrailingS_not_key (t : String) (h : t ∉ aliasStrings) :
    stripTrailingS t ∉ aliasKeys := by
  intro hmem
  unfold stripTrailingS at hmem
  by_cases hl : t.data.getLast? = some 's'
  · rw [if_pos hl] at hmem
    apply h
    unfold aliasStrings
    refine List.mem_append.mpr (Or.inr ?_)
    refine List.mem_map.mpr ⟨⟨t.data.dropLast⟩, hmem, ?_⟩
    apply String.ext
    show t.data.dropLast ++ [Char.ofNat 115] = t.data
    have : Char.ofNat 115 = 's' := rfl
    rw [this]
    exact (getLast_decomp t.data 's' hl).symm
  · rw [if_neg hl] at hmem
    exact h (List.mem_append.mpr (Or.inl hmem))

/-- Claim C8: check-type inference splits the check's name on its first
`'-'`, lowercases the prefix, strips one optional trailing `'s'` and looks
the result up in the fixed alias table: `pkg-foo` and `pkgs-foo` (in any
letter case) classify as `packages`, `darwinConfig-bar` as
`darwinConfigurations`, and a prefix whose normalization reaches no table
entry yields no classification. -/
theorem check_type_inference :
    getTypeOfCheck ⟨"checks", sysLin, "pkg-foo"⟩ = some "packages" ∧
    getTypeOfCheck ⟨"checks", sysLin, "pkgs-foo"⟩ = some "packages" ∧
    getTypeOfCheck ⟨"checks", sysLin, "PKGS-FOO"⟩ = some "packages" ∧
    getTypeOfCheck ⟨"checks", sysLin, "Pkg-Foo"⟩ = some "packages" ∧
    getTypeOfCheck ⟨"checks", sysLin, "darwinConfig-bar"⟩ =
      some "darwinConfigurations" ∧
    (∀ (d : Derivation) (pre suf : String),
      splitOnce d.name '-' = some (pre, suf) →
      lowerStr pre ∉ aliasStrings →
      getTypeOfCheck d = none) := by
  refine ⟨rfl, rfl, rfl, rfl, rfl, ?_⟩
  intro d pre suf hsplit hna
  unfold getTypeOfCheck
  rw [hsplit]
  exact checkTypeTable_none_of_not_mem _ (stripTrailingS_not_key _ hna)

/-- Witness for `check_type_inference` at the unknown prefix `zzz`. -/
theorem check_type_inference_witness :
    splitOnce (Derivation.name ⟨"checks", sysLin, "zzz-foo"⟩) '-' =
      some ("zzz", "foo") ∧
    lowerStr "zzz" ∉ aliasStrings ∧
    getTypeOfCheck ⟨"checks", sysLin, "zzz-foo"⟩ = none :=
  ⟨rfl, by decide,
    check_type_inference.2.2.2.2.2 ⟨"checks", sysLin, "zzz-foo"⟩ "zzz" "foo"
      rfl (by decide)⟩

/-! ## Graph cycle claims -/

theorem cyclePair_walk_none (fuel : Nat) :
    ∀ (cur : Nat) (path : List Nat), cur = 0 ∨ cur = 1 →
      cycleWalk [some 1, some 0] fuel cur path = none := by
  induction fuel with
  | zero => intro cur path _; rfl
  | succ n ih =>
    intro cur path h
    rcases h with h | h <;> subst h
    · show cycleWalk [some 1, some 0] n 1 (path ++ [1]) = none
      exact ih 1 (path ++ [1]) (Or.inr rfl)
    · show cycleWalk [some 1, some 0] n 0 (path ++ [0]) = none
      exact ih 0 (path ++ [0]) (Or.inl rfl)

/-- Claim C1: after `mark_dep(0, 1)` succeeds on the two-node graph, the call
`mark_dep(1, 0)` links the reverse edge and enters the cycle-confirmation
walk, which alternates between the two nodes forever: for every fuel bound it
has produced no result — neither `Ok` nor `CycleDetected` (the walk's only
bail-out condition, `parent_index == child_index`, never fires because the
parent read at each step differs from the node it was read from). -/
theorem mark_dep_cycle_walk_hangs :
    pairGraph.mark_dep 0 1 2 = some (MarkDepResult.ok pairLinked) ∧
    (∀ fuel : Nat, pairLinked.mark_dep 1 0 fuel = none) := by
  constructor
  · rfl
  · intro fuel
    have h : pairLinked.mark_dep 1 0 fuel =
        (match cycleWalk [some 1, some 0] fuel 0 [0] with
         | none => none
         | some none => some (MarkDepResult.ok pairBack)
         | some (some path) => some (MarkDepResult.cycleDetected path)) := rfl
    rw [h, cyclePair_walk_none fuel 0 [0] (Or.inl rfl)]

/-! ## Failure-propagation claims -/

/-- Claim C4: on a two-node chain whose first build fails, followed by an
independent one-node chain, the orchestrator clears the success flag,
registers the failure, stops the first chain and runs the later chain — but
the blocking loop starts at the failing node itself (`for j in i..`), so the
failing node `drvA` is also registered as blocked, citing itself as the
failed prerequisite, before `drvB` is blocked citing `drvA`. -/
theorem fail_blocks_failing_node_too :
    execChains failFirstBuilder [[(drvA, "pa"), (drvB, "pb")], [(drvC, "pc")]]
        initState =
      { allSucceeded := false
        haveRan := [drvC, drvB, drvA]
        built := [(drvA, Status.fail), (drvC, Status.success)]
        events := [Event.fail drvA, Event.blocked drvA drvA,
                   Event.blocked drvB drvA, Event.success drvC] } ∧
    Event.blocked drvA drvA ∈
      (execChains failFirstBuilder
        [[(drvA, "pa"), (drvB, "pb")], [(drvC, "pc")]] initState).events := by
  constructor
  · rfl
  · rw [(by rfl :
      (execChains failFirstBuilder
        [[(drvA, "pa"), (drvB, "pb")], [(drvC, "pc")]] initState).events =
      [Event.fail drvA, Event.blocked drvA drvA, Event.blocked drvB drvA,
       Event.success drvC])]
    simp

/-- Claim C6: with categories `["checks", "packages"]` on one platform,
`packages = ["foo"]` and `checks = ["pkgs-foo"]`, resolution yields exactly
one chain `[checks.<platform>.pkgs-foo, packages.<platform>.foo]` built
check-first; when the check's build fails, `packages.<platform>.foo` is
reported blocked citing the check, its build is never invoked, and the
overall run result is failure. -/
theorem gated_check_end_to_end :
    (graphFor evGated cfgTwoCats.build.outputs sysLin).map (fun g => g.chains) =
      some [[(checkDrv, checkDrv.format), (fooDrv, fooDrv.format)]] ∧
    buildAll evGated cfgTwoCats sysLin checkFailBuilder =
      some
        { allSucceeded := false
          haveRan := [fooDrv, checkDrv]
          built := [(checkDrv, Status.fail)]
          events := [Event.fail checkDrv, Event.blocked checkDrv checkDrv,
                     Event.blocked fooDrv checkDrv] } ∧
    (∀ st, buildAll evGated cfgTwoCats sysLin checkFailBuilder = some st →
      Event.blocked fooDrv checkDrv ∈ st.events ∧
      fooDrv ∉ st.built.map Prod.fst) ∧
    runModel evGated cfgTwoCats sysLin checkFailBuilder = some false := by
  refine ⟨rfl, rfl, ?_, rfl⟩
  intro st hst
  have h : st =
      { allSucceeded := false
        haveRan := [fooDrv, checkDrv]
        built := [(checkDrv, Status.fail)]
        events := [Event.fail checkDrv, Event.blocked checkDrv checkDrv,
                   Event.blocked fooDrv checkDrv] } := by
    have h2 : buildAll evGated cfgTwoCats sysLin checkFailBuilder =
        some
          { allSucceeded := false
            haveRan := [fooDrv, checkDrv]
            built := [(checkDrv, Status.fail)]
            events := [Event.fail checkDrv, Event.blocked checkDrv checkDrv,
                       Event.blocked fooDrv checkDrv] } := rfl
    rw [hst] at h2
    exact Option.some_inj.mp h2
  subst h
  refine ⟨by simp, ?_⟩
  simp [checkDrv, fooDrv]

theorem splitOnceChars_none (c : Char) (l : List Char) (h : c ∉ l) :
    splitOnceChars c l = none := by
  induction l with
  | nil => rfl
  | cons x xs ih =>
    simp only [List.mem_cons, not_or] at h
    unfold splitOnceChars
    rw [if_neg (fun hx => h.1 (hx.symm)), ih h.2]
    rfl

/-- Claim C10: a check whose name contains no `'-'` gets no classification,
is never attached as a prerequisite (the check-marking pass leaves the graph
untouched for it), is still built as its own singleton chain, and the run
continues and succeeds. -/
theorem dashless_check_ungated :
    (∀ d : Derivation, '-' ∉ d.name.data → getTypeOfCheck d = none) ∧
    (∀ (fuel : Nat) (sets : List (String × List (Derivation × String)))
        (check : Derivation) (checkPath : String)
        (rest : List (Derivation × String)) (g : Graph (Derivation × String)),
      getTypeOfCheck check = none →
      markChecks fuel sets ((check, checkPath) :: rest) g =
        markChecks fuel sets rest g) ∧
    graphFor evUngated cfgTwoCats.build.outputs sysLin =
      some ⟨[(standaloneDrv, standaloneDrv.format), (fooDrv, fooDrv.format)],
            [[], []], [none, none]⟩ ∧
    (graphFor evUngated cfgTwoCats.build.outputs sysLin).map
        (fun g => g.chains) =
      some [[(standaloneDrv, standaloneDrv.format)], [(fooDrv, fooDrv.format)]] ∧
    buildAll evUngated cfgTwoCats sysLin allOkBuilder =
      some
        { allSucceeded := true
          haveRan := [fooDrv, standaloneDrv]
          built := [(standaloneDrv, Status.success), (fooDrv, Status.success)]
          events := [Event.success standaloneDrv, Event.success fooDrv] } := by
  refine ⟨?_, ?_, rfl, rfl, rfl⟩
  · intro d h
    have hs : splitOnceChars '-' d.name.data = none := splitOnceChars_none _ _ h
    simp [getTypeOfCheck, splitOnce, hs]
  · intro fuel sets check checkPath rest g h
    simp [markChecks, h]

/-- Witness for `dashless_check_ungated` at the check name `"standalone"`. -/
theorem dashless_check_ungated_witness :
    ('-' ∉ (Derivation.name standaloneDrv).data) ∧
    getTypeOfCheck standaloneDrv = none :=
  ⟨by decide, dashless_check_ungated.1 standaloneDrv (by decide)⟩

/-! ## The overall run result (claim C7 machinery) -/

theorem blockRest_allSucceeded (preRec : Derivation) :
    ∀ (l : List (Derivation × String)) (st : ExecState),
      (blockRest preRec l st).allSucceeded = st.allSucceeded := by
  intro l
  induction l with
  | nil => intro st; rfl
  | cons nd rest ih =>
    intro st
    obtain ⟨drv, path⟩ := nd
    by_cases hc : drv ∈ st.haveRan <;> simp [blockRest, hc, ih]

theorem blockRest_built (preRec : Derivation) :
    ∀ (l : List (Derivation × String)) (st : ExecState),
      (blockRest preRec l st).built = st.built := by
  intro l
  induction l with
  | nil => intro st; rfl
  | cons nd rest ih =>
    intro st
    obtain ⟨drv, path⟩ := nd
    by_cases hc : drv ∈ st.haveRan <;> simp [blockRest, hc, ih]

theorem NoFailInv_fields (st st' : ExecState)
    (ha : st'.allSucceeded = st.allSucceeded) (hb : st'.built = st.built)
    (h : NoFailInv st) : NoFailInv st' := by
  unfold NoFailInv at h ⊢
  rw [ha, hb]
  exact h

theorem NoFailInv_push_ok (st : ExecState) (drv : Derivation) (s : Status)
    (hs : s ≠ Status.fail) (h : NoFailInv st) :
    (st.allSucceeded = true ↔
      ∀ p ∈ st.built ++ [(drv, s)], p.2 ≠ Status.fail) := by
  unfold NoFailInv at h
  constructor
  · intro hall p hp
    rcases List.mem_append.mp hp with h1 | h1
    · exact h.mp hall p h1
    · have : p = (drv, s) := by simpa using h1
      rw [this]
      exact hs
  · intro hall
    exact h.mpr (fun p hp => hall p (List.mem_append.mpr (Or.inl hp)))

theorem NoFailInv_push_fail (st : ExecState) (drv : Derivation) :
    ((false : Bool) = true ↔
      ∀ p ∈ st.built ++ [(drv, Status.fail)], p.2 ≠ Status.fail) := by
  constructor
  · intro h; exact absurd h (by simp)
  · intro hall
    exfalso
    exact hall (drv, Status.fail)
      (List.mem_append.mpr (Or.inr (by simp))) rfl

theorem execChain_inv (b : String → Status) :
    ∀ (c : List (Derivation × String)) (st : ExecState),
      NoFailInv st → NoFailInv (execChain b c st) := by
  intro c
  induction c with
  | nil => intro st h; exact h
  | cons nd rest ih =>
    intro st h
    obtain ⟨drv, path⟩ := nd
    by_cases hc : drv ∈ st.haveRan
    · simpa [execChain, hc] using ih st h
    · cases hb : b path with
      | skipped =>
        simp [execChain, hc, hb]
        exact ih _ (NoFailInv_push_ok st drv Status.skipped (by simp) h)
      | success =>
        simp [execChain, hc, hb]
        exact ih _ (NoFailInv_push_ok st drv Status.success (by simp) h)
      | fail =>
        simp [execChain, hc, hb]
        refine NoFailInv_fields
          { st with
              allSucceeded := false
              built := st.built ++ [(drv, Status.fail)]
              events := st.events ++ [Event.fail drv] }
          _ (blockRest_allSucceeded _ _ _) (blockRest_built _ _ _) ?_
        exact NoFailInv_push_fail st drv

theorem execChains_inv (b : String → Status) :
    ∀ (cs : List (List (Derivation × String))) (st : ExecState),
      NoFailInv st → NoFailInv (execChains b cs st) := by
  intro cs
  induction cs with
  | nil => intro st h; exact h
  | cons c rest ih =>
    intro st h
    show NoFailInv (execChains b rest (execChain b c st))
    exact ih _ (execChain_inv b c st h)

theorem buildSystem_inv (ev : Evaluator) (outputs : List String) (sys : System)
    (b : String → Status) (st st' : ExecState)
    (hs : buildSystem ev outputs sys b st = some st') (h : NoFailInv st) :
    NoFailInv st' := by
  unfold buildSystem at hs
  cases hg : graphFor ev outputs sys with
  | none => rw [hg] at hs; exact absurd hs (by simp)
  | some g =>
    rw [hg] at hs
    have := Option.some_inj.mp hs
    rw [← this]
    apply execChains_inv
    exact NoFailInv_fields _ st rfl rfl h

theorem buildStep_inv (ev : Evaluator) (outputs : List String) (host : System)
    (b : String → Status) (acc : Option ExecState) (sys : System)
    (st' : ExecState)
    (hpre : ∀ s0, acc = some s0 → NoFailInv s0)
    (hs : buildStep ev outputs host b acc sys = some st') : NoFailInv st' := by
  cases acc with
  | none => simp [buildStep] at hs
  | some st =>
    by_cases hh : sys = host
    · have heq : buildStep ev outputs host b (some st) sys =
          buildSystem ev outputs sys b st := by
        simp [buildStep, hh]
      rw [heq] at hs
      exact buildSystem_inv ev outputs sys b st st' hs (hpre st rfl)
    · have heq : buildStep ev outputs host b (some st) sys = some st := by
        simp [buildStep, hh]
      rw [heq] at hs
      rw [← Option.some_inj.mp hs]
      exact hpre st rfl

theorem foldl_buildStep_inv (ev : Evaluator) (outputs : List String)
    (host : System) (b : String → Status) :
    ∀ (l : List System) (acc : Option ExecState),
      (∀ s0, acc = some s0 → NoFailInv s0) →
      ∀ st, l.foldl (buildStep ev outputs host b) acc = some st →
        NoFailInv st := by
  intro l
  induction l with
  | nil =>
    intro acc hpre st hf
    exact hpre st hf
  | cons sys rest ih =>
    intro acc hpre st hf
    refine ih (buildStep ev outputs host b acc sys) ?_ st hf
    intro s0 hs0
    exact buildStep_inv ev outputs host b acc sys s0 hpre hs0

theorem initState_inv : NoFailInv initState := by
  simp [NoFailInv, initState]

theorem buildAll_inv (ev : Evaluator) (cfg : Config) (host : System)
    (b : String → Status) (st : ExecState)
    (h : buildAll ev cfg host b = some st) : NoFailInv st := by
  refine foldl_buildStep_inv ev cfg.build.outputs host b cfg.systemsList
    (some initState) ?_ st h
  intro s0 hs0
  rw [← Option.some_inj.mp hs0]
  exact initState_inv

/-- Claim C7: a run of `build_all` that completes without a fatal error
returns `true` exactly when no invoked build across any chain of any
platform produced `Fail` (`Skipped` and `Success` outcomes and
skipped-output categories never lower the flag), and `run` reports exactly
that boolean. -/
theorem run_true_iff_no_fail (ev : Evaluator) (cfg : Config) (host : System)
    (builder : String → Status) (st : ExecState)
    (h : buildAll ev cfg host builder = some st) :
    runModel ev cfg host builder = some true ↔
      ∀ p ∈ st.built, p.2 ≠ Status.fail := by
  have hinv := buildAll_inv ev cfg host builder st h
  unfold NoFailInv at hinv
  unfold runModel
  rw [h]
  simp only [Option.map_some']
  constructor
  · intro hs
    exact hinv.mp (Option.some_inj.mp hs)
  · intro hall
    rw [hinv.mpr hall]

/-- Witness for `run_true_iff_no_fail`: the two-category all-success run. -/
theorem run_true_iff_no_fail_witness :
    buildAll evUngated cfgTwoCats sysLin allOkBuilder =
      some
        { allSucceeded := true
          haveRan := [fooDrv, standaloneDrv]
          built := [(standaloneDrv, Status.success), (fooDrv, Status.success)]
          events := [Event.success standaloneDrv, Event.success fooDrv] } ∧
    (runModel evUngated cfgTwoCats sysLin allOkBuilder = some true ↔
      ∀ p ∈ (ExecState.mk true [fooDrv, standaloneDrv]
          [(standaloneDrv, Status.success), (fooDrv, Status.success)]
          [Event.success standaloneDrv, Event.success fooDrv]).built,
        p.2 ≠ Status.fail) :=
  ⟨rfl, run_true_iff_no_fail evUngated cfgTwoCats sysLin allOkBuilder _ rfl⟩

/-! ## Chain-decomposition claims -/

theorem getD_set_ne (l : List Bool) (i j : Nat) (b : Bool) (h : i ≠ j) :
    (l.set i b).getD j false = l.getD j false := by
  rw [List.getD_eq_getElem?_getD, List.getD_eq_getElem?_getD,
    List.getElem?_set_ne h]

theorem markWalked_getD_not_mem :
    ∀ (idxs : List Nat) (walked : List Bool) (j : Nat), j ∉ idxs →
      (markWalked walked idxs).getD j false = walked.getD j false := by
  intro idxs
  induction idxs with
  | nil => intro walked j _; rfl
  | cons i rest ih =>
    intro walked j hj
    simp only [List.mem_cons, not_or] at hj
    have h1 : markWalked walked (i :: rest) =
        markWalked (walked.set i true) rest := rfl
    rw [h1, ih _ j hj.2, getD_set_ne _ i j true (fun e => hj.1 e.symm)]

theorem rootWalk_mem (parents : List (Option Nat)) :
    ∀ (fuel cur : Nat) (p : List Nat), rootWalk parents fuel cur = some p →
      ∀ x ∈ p, x = cur ∨ ∃ y, parents.getD y none = some x := by
  intro fuel
  induction fuel with
  | zero => intro cur p h; exact absurd h (by simp [rootWalk])
  | succ n ih =>
    intro cur p h
    unfold rootWalk at h
    cases hp : parents.getD cur none with
    | none =>
      rw [hp] at h
      have hpl : p = [cur] := (Option.some_inj.mp h).symm
      intro x hx
      rw [hpl] at hx
      exact Or.inl (by simpa using hx)
    | some q =>
      rw [hp] at h
      change (rootWalk parents n q).map (fun rest => cur :: rest) = some p at h
      cases hr : rootWalk parents n q with
      | none => rw [hr] at h; exact absurd h (by simp)
      | some rest =>
        rw [hr] at h
        have hpl : p = cur :: rest := by simpa using h.symm
        intro x hx
        rw [hpl] at hx
        rcases List.mem_cons.mp hx with h1 | h1
        · exact Or.inl h1
        · rcases ih q rest hr x h1 with h2 | h2
          · exact Or.inr ⟨cur, h2 ▸ hp⟩
          · exact Or.inr h2

theorem parentsHaveChildren_not_leaf (g : Graph T)
    (h : g.parentsHaveChildren = true) :
    ∀ (y j : Nat), g.parents.getD y none = some j → g.is_leaf j = false := by
  intro y j hg
  cases hgy : g.parents[y]? with
  | none =>
    rw [List.getD_eq_getElem?_getD, hgy] at hg
    exact absurd hg (by simp)
  | some o =>
    rw [List.getD_eq_getElem?_getD, hgy] at hg
    simp only [Option.getD_some] at hg
    have hmem : o ∈ g.parents := List.getElem?_mem hgy
    rw [hg] at hmem
    have := (List.all_eq_true.mp h) (some j) hmem
    simpa using this

theorem chainsGo_spec [Inhabited T] (g : Graph T)
    (hpar : g.parentsHaveChildren = true) :
    ∀ (idxs : List Nat) (walked : List Bool),
      idxs.Nodup →
      (∀ i ∈ idxs, g.is_leaf i = true →
        (rootWalk g.parents g.len i).isSome = true) →
      (∀ i ∈ idxs, g.is_leaf i = true → walked.getD i false = false) →
      chainsGo g idxs walked =
        (idxs.filter (fun i => g.is_leaf i)).map
          (fun i =>
            (((rootWalk g.parents g.len i).getD []).map g.data_of).reverse) := by
  intro idxs
  induction idxs with
  | nil => intro walked _ _ _; rfl
  | cons i rest ih =>
    intro walked hnd hterm hwalk
    have hnd2 := List.nodup_cons.mp hnd
    have htrest : ∀ j ∈ rest, g.is_leaf j = true →
        (rootWalk g.parents g.len j).isSome = true :=
      fun j hj => hterm j (List.mem_cons_of_mem i hj)
    by_cases hleaf : g.is_leaf i = true
    · have hw : walked.getD i false = false :=
        hwalk i (List.mem_cons_self i rest) hleaf
      have hs : (rootWalk g.parents g.len i).isSome = true :=
        hterm i (List.mem_cons_self i rest) hleaf
      obtain ⟨path, hpath⟩ := Option.isSome_iff_exists.mp hs
      rw [show chainsGo g (i :: rest) walked =
          (if walked.getD i false = true then chainsGo g rest walked
           else if g.is_leaf i = true then
             (match rootWalk g.parents g.len i with
              | none => chainsGo g rest (markWalked walked [i])
              | some path =>
                ((path.map g.data_of).reverse) ::
                  chainsGo g rest (markWalked walked path))
           else chainsGo g rest walked) from rfl]
      rw [hw, hpath]
      simp only [Bool.false_eq_true, if_false, hleaf, if_true]
      rw [List.filter_cons, if_pos (by simpa using hleaf), List.map_cons, hpath]
      simp only [Option.getD_some]
      congr 1
      apply ih (markWalked walked path) hnd2.2 htrest
      intro j hj hjleaf
      have hjnp : j ∉ path := by
        intro hjp
        rcases rootWalk_mem g.parents g.len i path hpath j hjp with h1 | h1
        · exact hnd2.1 (h1 ▸ hj)
        · obtain ⟨y, hy⟩ := h1
          rw [parentsHaveChildren_not_leaf g hpar y j hy] at hjleaf
          exact absurd hjleaf (by simp)
      rw [markWalked_getD_not_mem path walked j hjnp]
      exact hwalk j (List.mem_cons_of_mem i hj) hjleaf
    · have hskip : chainsGo g (i :: rest) walked = chainsGo g rest walked := by
        rw [show chainsGo g (i :: rest) walked =
            (if walked.getD i false = true then chainsGo g rest walked
             else if g.is_leaf i = true then
               (match rootWalk g.parents g.len i with
                | none => chainsGo g rest (markWalked walked [i])
                | some path =>
                  ((path.map g.data_of).reverse) ::
                    chainsGo g rest (markWalked walked path))
             else chainsGo g rest walked) from rfl]
        by_cases hw : walked.getD i false = true
        · rw [if_pos hw]
        · rw [if_neg hw, if_neg hleaf]
      rw [hskip, List.filter_cons, if_neg (by simpa using hleaf)]
      refine ih walked hnd2.2 htrest ?_
      intro j hj
      exact hwalk j (List.mem_cons_of_mem i hj)

/-- Claim C5 counterexample: the forest with one root and two children
(built through two successful `mark_dep` calls) decomposes into the chains
`[[0, 1], [0, 2]]`: the shared root `0` appears in **two** chains, so the
chains' node sets are neither pairwise disjoint nor is every node in exactly
one chain. -/
theorem chains_shared_ancestor_cex :
    triGraph.mark_dep 0 1 4 = some (MarkDepResult.ok starMid) ∧
    starMid.mark_dep 0 2 4 = some (MarkDepResult.ok starGraph) ∧
    starGraph.chains = [[0, 1], [0, 2]] ∧
    (starGraph.chains.map (fun c => c.count 0)).sum = 2 := by
  refine ⟨rfl, rfl, rfl, rfl⟩

/-- Claim C5 (amended): on every forest-shaped graph (parent pointers target
nodes with recorded children, every parent walk terminates), chain
decomposition emits exactly one chain per leaf, in node-insertion order,
each chain being that leaf's root-to-leaf lineage; a node shared by several
leaves' lineages therefore appears in each of their chains, so the chains'
node sets are disjoint only when no node has two children. -/
theorem chains_one_per_leaf {T : Type} [Inhabited T] (g : Graph T)
    (hpar : g.parentsHaveChildren = true) (hterm : g.walksTerminate = true) :
    g.chains =
      g.leafIdxs.map
        (fun i =>
          (((rootWalk g.parents g.len i).getD []).map g.data_of).reverse) := by
  unfold Graph.chains Graph.leafIdxs
  rw [chainsGo_spec g hpar (List.range g.len) (List.replicate g.len false)
    (List.nodup_range g.len) ?_ ?_]
  · intro i hi _
    exact (List.all_eq_true.mp hterm) i hi
  · intro i hi _
    rw [List.getD_eq_getElem?_getD, List.getElem?_replicate]
    by_cases h : i < g.len <;> simp [h]

/-- Witness for `chains_one_per_leaf` at the one-root-two-children forest. -/
theorem chains_one_per_leaf_witness :
    starGraph.parentsHaveChildren = true ∧
    starGraph.walksTerminate = true ∧
    starGraph.chains =
      starGraph.leafIdxs.map
        (fun i =>
          (((rootWalk starGraph.parents starGraph.len i).getD []).map
            starGraph.data_of).reverse) :=
  ⟨by decide, by decide, chains_one_per_leaf starGraph (by decide) (by decide)⟩

end FlakeCI
